import Mathlib

/-!
Verification of the DynamoDB connection / subscription registry.

Shallow embedding of `DynamoDBRangeSubscriptionManager` and
`DynamoDBConnectionManager` (the connection-lifecycle manager and
dual-index subscription engine of the aws-lambda-graphql registry layer).

Tables are modelled as lists of rows in physical scan/query order; the
DynamoDB operations used by the source (GetItem, PutItem, DeleteItem,
BatchWriteItem, TransactWriteItems, Query and Scan with `Limit`,
`FilterExpression` applied after the limit, and a continuation cursor)
are modelled on those lists.  Machine timestamps are `Nat` epoch seconds.
-/

set_option maxRecDepth 10000

namespace AwsGraphql

/-- Modelled from the spec: `helpers.computeTTL` is not among the provided
sources.  The spec describes the stored `ttl` as "a fresh ttl lease (if
enabled)" in epoch seconds, i.e. the current time plus the configured lease. -/
def computeTTL (lease now : Nat) : Nat := now + lease

/-- Modelled from the spec: `helpers/isTTLExpired` is not among the provided
sources.  Per the spec a TTL lease is "an expiry timestamp after which a
record is logically invalid regardless of physical presence", and an absent
ttl means no expiry. -/
def isTTLExpired (ttl : Option Nat) (now : Nat) : Bool :=
  match ttl with
  | none => false
  | some t => t < now

/-- The `ttl` attribute written by a mutation: absent when the configured ttl
is disabled (`false`/`null` in the source), otherwise `computeTTL`. -/
def ttlField (cfg : Option Nat) (now : Nat) : Option Nat :=
  match cfg with
  | none => none
  | some lease => some (computeTTL lease now)

/-- `IConnectionData`: `{endpoint, context, isInitialized}`. -/
structure ConnectionData where
  endpoint : String
  context : List (String × String)
  isInitialized : Bool
deriving DecidableEq, Repr

/-- A connection record.  `ttl` and `createdAt` are `none` exactly when the
corresponding attribute is absent from the object (the value returned by
`registerConnection` carries neither; the stored row carries `createdAt`
and, when enabled, `ttl`). -/
structure Connection where
  id : String
  data : ConnectionData
  ttl : Option Nat := none
  createdAt : Option String := none
deriving DecidableEq, Repr

/-- An operation: only `operationId` is used structurally; the rest of the
payload is uninterpreted. -/
structure Operation where
  operationId : String
  payload : String := ""
deriving DecidableEq, Repr

/-- `generateSubscriptionId`: `` `${connectionId}:${operationId}` ``. -/
def generateSubscriptionId (connectionId operationId : String) : String :=
  connectionId ++ ":" ++ operationId

/-- A row of the `Subscriptions` table (primary index, HASH `event`,
RANGE `subscriptionId`); connection and operation are denormalized in. -/
structure SubRow where
  event : String
  subscriptionId : String
  connection : Connection
  operation : Operation
  operationId : String
  ttl : Option Nat
deriving DecidableEq, Repr

/-- A row of the `SubscriptionOperations` table (secondary index, HASH
`subscriptionId`, RANGE `event`). -/
structure OpRow where
  subscriptionId : String
  event : String
  ttl : Option Nat
deriving DecidableEq, Repr

/-- The state owned by `DynamoDBRangeSubscriptionManager`: both tables,
each in physical scan order. -/
structure SubState where
  subs : List SubRow
  ops : List OpRow
deriving DecidableEq, Repr

/-- Key equality on the primary index: `(event, subscriptionId)`. -/
def subKeyEq (e sid : String) (r : SubRow) : Bool :=
  r.event == e && r.subscriptionId == sid

/-- Key equality on the secondary index: `(subscriptionId, event)`. -/
def opKeyEq (sid e : String) (o : OpRow) : Bool :=
  o.subscriptionId == sid && o.event == e

/-- DynamoDB `DeleteRequest`/`Delete` on the primary index: removes the row
with the given key (a key matches at most one row in a real table). -/
def deleteSub (subs : List SubRow) (e sid : String) : List SubRow :=
  subs.filter (fun r => !subKeyEq e sid r)

/-- DynamoDB `DeleteRequest`/`Delete` on the secondary index. -/
def deleteOp (ops : List OpRow) (sid e : String) : List OpRow :=
  ops.filter (fun o => !opKeyEq sid e o)

/-- DynamoDB `PutRequest` on the primary index: full-item upsert by key. -/
def putSub (subs : List SubRow) (r : SubRow) : List SubRow :=
  deleteSub subs r.event r.subscriptionId ++ [r]

/-- DynamoDB `PutRequest` on the secondary index. -/
def putOp (ops : List OpRow) (o : OpRow) : List OpRow :=
  deleteOp ops o.subscriptionId o.event ++ [o]

/-- The primary-index row written by `subscribe` for one event name. -/
def mkSubRow (conn : Connection) (op : Operation) (sid : String)
    (tf : Option Nat) (name : String) : SubRow :=
  { event := name, subscriptionId := sid, connection := conn,
    operation := op, operationId := op.operationId, ttl := tf }

/-- The secondary-index row written by `subscribe` for one event name. -/
def mkOpRow (sid : String) (tf : Option Nat) (name : String) : OpRow :=
  { subscriptionId := sid, event := name, ttl := tf }

/-- Effect of the pair of `PutRequest`s that `subscribe` issues for one
event name inside its single `BatchWriteItemCommand`. -/
def applyPut (st : SubState) (conn : Connection) (op : Operation)
    (sid : String) (tf : Option Nat) (name : String) : SubState :=
  { subs := putSub st.subs (mkSubRow conn op sid tf name),
    ops := putOp st.ops (mkOpRow sid tf name) }

/-- `subscribe(names, connection, operation)`: one shared subscription id and
one shared ttl snapshot; for each name one primary put and one mirror
secondary put, all in one batch. -/
def subscribe (st : SubState) (names : List String) (conn : Connection)
    (op : Operation) (cfg : Option Nat) (now : Nat) : SubState :=
  let sid := generateSubscriptionId conn.id op.operationId
  let tf := ttlField cfg now
  names.foldl (fun s name => applyPut s conn op sid tf name) st

/-- The argument record of `unsubscribe`. -/
structure Subscriber where
  connection : Connection
  operationId : String
  event : String
deriving DecidableEq, Repr

/-- `unsubscribe(subscriber)`: a `TransactWriteItemsCommand` deleting the one
`(event, subscriptionId)` key from the primary index and the mirrored
`(subscriptionId, event)` key from the secondary index. -/
def unsubscribe (st : SubState) (s : Subscriber) : SubState :=
  let sid := generateSubscriptionId s.connection.id s.operationId
  { subs := deleteSub st.subs s.event sid,
    ops := deleteOp st.ops sid s.event }

/-- `TransactWriteItems` is atomic: the only states observable across a crash
are "nothing applied" and "everything applied". -/
def unsubscribeOutcomes (st : SubState) (s : Subscriber) : List SubState :=
  [st, unsubscribe st s]

/-- A `BatchWriteItemCommand` holding, for each `(event, subscriptionId)`
key, a `DeleteRequest` against the primary index and a mirrored
`DeleteRequest` against the secondary index. -/
def batchDeleteKeys (st : SubState) : List (String × String) → SubState
  | [] => st
  | (e, sid) :: rest =>
    batchDeleteKeys
      { subs := deleteSub st.subs e sid, ops := deleteOp st.ops sid e } rest

/-- `unsubscribeOperation(connectionId, operationId)`: query the secondary
index under the composed subscription id, then batch-delete the matching
rows from both indexes. -/
def unsubscribeOperation (st : SubState) (connectionId operationId : String) :
    SubState :=
  let sid := generateSubscriptionId connectionId operationId
  let items := st.ops.filter (fun o => o.subscriptionId == sid)
  batchDeleteKeys st (items.map (fun o => (o.event, o.subscriptionId)))

/-- DynamoDB's `begins_with` on strings: character-wise prefix test. -/
def strBeginsWith (p s : String) : Bool := p.data.isPrefixOf s.data

/-- The `begins_with(subscriptionId, :connection_id)` filter of the scan in
`unsubscribeAllByConnectionId`. -/
def scanMatches (cid : String) (r : SubRow) : Bool :=
  strBeginsWith cid r.subscriptionId

/-- The do/while loop of `unsubscribeAllByConnectionId` over the scan of the
primary index: pages of `Limit` 12 rows are read (the filter is applied
after the limit), an empty filtered page returns immediately, otherwise the
matches are batch-deleted from both indexes and the loop continues while a
continuation cursor remains.  `remaining` is the unscanned tail of the
table snapshot; the loop only deletes rows already scanned, so the cursor
keeps addressing the same physical position. -/
def unsubAllGo (cid : String) (st : SubState) (remaining : List SubRow) :
    SubState :=
  let items := (remaining.take 12).filter (scanMatches cid)
  if items.isEmpty then st
  else
    let st' := batchDeleteKeys st
      (items.map (fun r => (r.event, r.subscriptionId)))
    if h : remaining.length ≤ 12 then st'
    else unsubAllGo cid st' (remaining.drop 12)
termination_by remaining.length
decreasing_by
  simp only [List.length_drop]
  omega

/-- `unsubscribeAllByConnectionId(connectionId)`. -/
def unsubscribeAllByConnectionId (st : SubState) (cid : String) : SubState :=
  unsubAllGo cid st st.subs

/-- `true` when no 12-row scan page that still has matching rows behind it
filters down to nothing — the condition under which the early `return` of
`unsubscribeAllByConnectionId` is never taken before the scan is done. -/
def scanCoversB (cid : String) (l : List SubRow) : Bool :=
  if (l.filter (scanMatches cid)).isEmpty then true
  else if h : l.length ≤ 12 then true
  else (!((l.take 12).filter (scanMatches cid)).isEmpty)
       && scanCoversB cid (l.drop 12)
termination_by l.length
decreasing_by
  simp only [List.length_drop]
  omega

/-- The `#ttl > :time OR attribute_not_exists(#ttl)` filter of
`subscribersByEvent`. -/
def ttlAlive (time : Nat) (ttl : Option Nat) : Bool :=
  match ttl with
  | none => true
  | some t => time < t

/-- The rows of the primary index in the partition of one event name, in
range-key (query) order. -/
def eventRows (rows : List SubRow) (name : String) : List SubRow :=
  rows.filter (fun r => r.event == name)

/-- The captured state of the async iterator returned by
`subscribersByEvent`: the `ExclusiveStartKey` position and the `done` flag
(set once a page comes back without `LastEvaluatedKey`). -/
structure SbeIter where
  start : Nat
  done : Bool
deriving DecidableEq, Repr

/-- One `next()` call of the `subscribersByEvent` iterator: if the internal
flag is set, yield `{value: [], done: true}`; otherwise run one
`QueryCommand` with `Limit` 50 (filter applied after the limit), record
whether a `LastEvaluatedKey` came back, and yield
`{value, done: value.length === 0}`. -/
def sbeNext (rows : List SubRow) (name : String) (time : Nat) (s : SbeIter) :
    (List SubRow × Bool) × SbeIter :=
  if s.done then (([], true), s)
  else
    let q := eventRows rows name
    let page := (q.drop s.start).take 50
    let value := page.filter (fun r => ttlAlive time r.ttl)
    let newStart := s.start + page.length
    if newStart < q.length then
      ((value, value.isEmpty), { start := newStart, done := false })
    else
      ((value, value.isEmpty), { start := newStart, done := true })

/-- Standard async-iteration consumption (`for await`) of the iterator:
call `next()` until a result with `done: true` arrives (whose value is
discarded), collecting the yielded pages. -/
def sbeConsume (rows : List SubRow) (name : String) (time : Nat) :
    Nat → SbeIter → List (List SubRow)
  | 0, _ => []
  | fuel + 1, s =>
    let r := sbeNext rows name time s
    if r.1.2 then [] else r.1.1 :: sbeConsume rows name time fuel r.2

/-- A published event; `subscribersByEvent` derives the partition name from
it through the pluggable extractor (default `(event) => event.event`). -/
structure PubEvent where
  event : String
  payload : String := ""
deriving DecidableEq, Repr

/-- The pages produced by fully draining `subscribersByEvent(event)`. -/
def subscribersByEventPages (rows : List SubRow)
    (extractor : PubEvent → String) (e : PubEvent) (time fuel : Nat) :
    List (List SubRow) :=
  sbeConsume rows (extractor e) time fuel ⟨0, false⟩

/-- `true` when no non-final 50-row query page of the partition filters down
to nothing — the condition under which the iterator's
`done: value.length === 0` never fires before the cursor is exhausted. -/
def sbeCoversB (time : Nat) (l : List SubRow) : Bool :=
  if h : l.length ≤ 50 then true
  else (!((l.take 50).filter (fun r => ttlAlive time r.ttl)).isEmpty)
       && sbeCoversB time (l.drop 50)
termination_by l.length
decreasing_by
  simp only [List.length_drop]
  omega

/-- An entry of the execution trace of `hydrateConnection`: one `GetItemCommand`
point lookup, or one `setTimeout` wait of the configured delay. -/
inductive HEvent
  | lookup (i : Nat)
  | wait
deriving DecidableEq, Repr

/-- The retry loop of `hydrateConnection`.  `reads i` is what the (eventually
consistent) connections table returns to the `GetItemCommand` of attempt `i`;
a successful attempt breaks out of the loop, an unsuccessful one waits the
configured timeout and tries again while attempts remain. -/
def hydrateLoop (reads : Nat → Option Connection) (i : Nat) :
    Nat → Option Connection × List HEvent
  | 0 => (none, [])
  | n + 1 =>
    match reads i with
    | some c => (some c, [HEvent.lookup i])
    | none =>
      let r := hydrateLoop reads (i + 1) n
      (r.1, HEvent.lookup i :: HEvent.wait :: r.2)

/-- Result of `hydrateConnection`: the hydrated row, or the thrown
`ConnectionNotFoundError`. -/
inductive HydrateResult
  | found (c : Connection)
  | connectionNotFound
deriving DecidableEq, Repr

/-- `hydrateConnection(connectionId, {retryCount, timeout})`: up to
`retryCount + 1` point lookups; if no attempt finds a row, or the first row
found has an elapsed ttl, throw `ConnectionNotFoundError`, else return the
row.  The second component is the lookup/wait trace. -/
def hydrateConnection (reads : Nat → Option Connection) (retryCount now : Nat) :
    HydrateResult × List HEvent :=
  let r := hydrateLoop reads 0 (retryCount + 1)
  match r.1 with
  | none => (HydrateResult.connectionNotFound, r.2)
  | some c =>
    if isTTLExpired c.ttl now then (HydrateResult.connectionNotFound, r.2)
    else (HydrateResult.found c, r.2)

/-- Index and row of the first successful lookup among `n` attempts starting
at attempt `i`. -/
def firstFound (reads : Nat → Option Connection) (i : Nat) :
    Nat → Option (Nat × Connection)
  | 0 => none
  | n + 1 =>
    match reads i with
    | some c => some (i, c)
    | none => firstFound reads (i + 1) n

/-- Number of point lookups in a trace. -/
def numLookups (tr : List HEvent) : Nat :=
  (tr.filter (fun e => match e with | HEvent.lookup _ => true | _ => false)).length

/-- One unsuccessful attempt: a lookup followed by the configured wait. -/
def lookupWaitBlock (i : Nat) : List HEvent := [HEvent.lookup i, HEvent.wait]

/-- The trace of `n` consecutive unsuccessful attempts starting at attempt
`i`: each point lookup is followed by one wait of the configured timeout. -/
def failTrace (i : Nat) : Nat → List HEvent
  | 0 => []
  | n + 1 => lookupWaitBlock i ++ failTrace (i + 1) n

/-- The intended trace of the retry loop: unsuccessful attempts up to the
first successful lookup (which ends the trace), or all `n` attempts
unsuccessful. -/
def hydrateTraceSpec (reads : Nat → Option Connection) (i n : Nat) :
    List HEvent :=
  match firstFound reads i n with
  | some jc => failTrace i (jc.1 - i) ++ [HEvent.lookup jc.1]
  | none => failTrace i n

/-- `registerConnection({connectionId, endpoint})`: the returned value is
`{id, data}` with `data = {endpoint, context: {}, isInitialized: false}`;
the `PutItemCommand` row additionally carries `createdAt` and, when the ttl
lease is enabled, a fresh `ttl`.  Result: `(returned, stored row)`. -/
def registerConnection (connectionId endpoint : String) (cfg : Option Nat)
    (now : Nat) (nowStr : String) : Connection × Connection :=
  let conn : Connection :=
    { id := connectionId,
      data := { endpoint := endpoint, context := [], isInitialized := false } }
  let stored : Connection :=
    { id := connectionId, data := conn.data, ttl := ttlField cfg now,
      createdAt := some nowStr }
  (conn, stored)

/-- The state owned by `DynamoDBConnectionManager`: the connections table and
the subscription manager it delegates to. -/
structure CMState where
  connections : List Connection
  subState : SubState
deriving DecidableEq, Repr

/-- `unregisterConnection({id})`: delete the connection row and trigger
`subscriptions.unsubscribeAllByConnectionId(id)`. -/
def unregisterConnection (st : CMState) (id : String) : CMState :=
  { connections := st.connections.filter (fun c => !(c.id == id)),
    subState := unsubscribeAllByConnectionId st.subState id }

/-- Outcome of the transport push (`PostToConnectionCommand`): delivered, or
failed with an optional HTTP status code (410 = permanently gone). -/
inductive TransportResult
  | delivered
  | failed (statusCode : Option Nat)
deriving DecidableEq, Repr

/-- How a call to `sendToConnection` comes back to its caller: a normal
return with the resulting state, or a propagated exception. -/
inductive SendReturn
  | returned (st : CMState)
  | raised (e : String)
deriving DecidableEq, Repr

/-- `sendToConnection(connection, payload)`: one push attempt inside
try/catch; a 410 failure triggers `unregisterConnection`, any other failure
is only logged; nothing is rethrown and nothing is retried.  The second
component counts push attempts. -/
def sendToConnection (st : CMState) (conn : Connection)
    (outcome : TransportResult) : SendReturn × Nat :=
  match outcome with
  | TransportResult.delivered => (SendReturn.returned st, 1)
  | TransportResult.failed code =>
    if code == some 410 then
      (SendReturn.returned (unregisterConnection st conn.id), 1)
    else
      (SendReturn.returned st, 1)

/-- The `(subscriptionId, event, ttl)` projection of the primary index. -/
def subPairs (st : SubState) : List (String × String × Option Nat) :=
  st.subs.map (fun r => (r.subscriptionId, r.event, r.ttl))

/-- The `(subscriptionId, event, ttl)` projection of the secondary index. -/
def opPairs (st : SubState) : List (String × String × Option Nat) :=
  st.ops.map (fun o => (o.subscriptionId, o.event, o.ttl))

/-- Core cross-index invariant: both indexes hold the same
`(subscriptionId, event, ttl)` triples. -/
def pairInv (st : SubState) : Prop :=
  (∀ p ∈ subPairs st, p ∈ opPairs st) ∧ (∀ p ∈ opPairs st, p ∈ subPairs st)

instance (st : SubState) : Decidable (pairInv st) := by
  unfold pairInv
  exact inferInstance

/-! ## Concrete fixtures used by witnesses and counterexamples -/

/-- A sample connection. -/
def conn0 : Connection :=
  { id := "c1",
    data := { endpoint := "e", context := [], isInitialized := false } }

/-- A sample operation. -/
def op0 : Operation := { operationId := "op1" }

/-- An expired primary-index row (`ttl = 10`) in partition `"A"`, with a
distinct range key per `i`. -/
def deadRowA (i : Nat) : SubRow :=
  { event := "A", subscriptionId := "d" ++ toString i ++ ":op",
    connection := conn0, operation := op0, operationId := "op",
    ttl := some 10 }

/-- A live primary-index row (no ttl) in partition `"A"`. -/
def aliveRowA : SubRow :=
  { event := "A", subscriptionId := "z:op", connection := conn0,
    operation := op0, operationId := "op", ttl := none }

/-- A 51-row partition whose first full query page (50 rows) is entirely
expired at time 100 while a live row sits on the second page. -/
def rowsPage2 : List SubRow := (List.range 50).map deadRowA ++ [aliveRowA]

/-- A two-row partition, one live and one expired row. -/
def rowsSmall : List SubRow := [aliveRowA, deadRowA 0]

/-- A primary-index row of some other connection (`b<i>:op`), partition
`"E"`. -/
def otherRowE (i : Nat) : SubRow :=
  { event := "E", subscriptionId := "b" ++ toString i ++ ":op",
    connection := conn0, operation := op0, operationId := "op", ttl := none }

/-- A primary-index row whose subscription id starts with connection id
`"a"`. -/
def mineRowE : SubRow :=
  { event := "E", subscriptionId := "a:op", connection := conn0,
    operation := op0, operationId := "op", ttl := none }

/-- The secondary-index mirror of a primary-index row. -/
def mirrorOf (r : SubRow) : OpRow :=
  { subscriptionId := r.subscriptionId, event := r.event, ttl := r.ttl }

/-- A consistent dual-index state whose first 12-row scan page contains no
row of connection `"a"` while its 13th row belongs to `"a"`. -/
def stPage2 : SubState :=
  { subs := (List.range 12).map otherRowE ++ [mineRowE],
    ops := ((List.range 12).map otherRowE ++ [mineRowE]).map mirrorOf }

/-- A small consistent dual-index state with one row of connection `"a"` and
one row of another connection. -/
def stSmall : SubState :=
  { subs := [mineRowE, otherRowE 0],
    ops := [mirrorOf mineRowE, mirrorOf (otherRowE 0)] }

/-- A primary-index row of connection `"ab"`, whose id extends `"a"`. -/
def rowAB : SubRow :=
  { event := "E", subscriptionId := generateSubscriptionId "ab" "op",
    connection := conn0, operation := op0, operationId := "op", ttl := none }

/-- A state holding only a subscription of connection `"ab"`. -/
def stAB : SubState := { subs := [rowAB], ops := [mirrorOf rowAB] }

/-- The empty dual-index state. -/
def stEmpty : SubState := { subs := [], ops := [] }

/-- A connection-table read sequence: attempt 0 misses, attempt 1 hits. -/
def readsHit1 : Nat → Option Connection :=
  fun i => if i = 1 then some conn0 else none

/-- A sample connection-manager state. -/
def cm0 : CMState := { connections := [conn0], subState := stSmall }

/-- A primary-index row of operation `c1:op1` in partition `"E"`. -/
def rowC6 : SubRow :=
  mkSubRow conn0 op0 (generateSubscriptionId "c1" "op1") none "E"

/-- A consistent state holding only the rows of operation `c1:op1`. -/
def stC6 : SubState := { subs := [rowC6], ops := [mirrorOf rowC6] }

/-! ## Basic lemmas about the table operations -/

theorem mem_deleteSub {subs : List SubRow} {e sid : String} {r : SubRow} :
    r ∈ deleteSub subs e sid ↔
      r ∈ subs ∧ ¬(r.event = e ∧ r.subscriptionId = sid) := by
  simp [deleteSub, subKeyEq, List.mem_filter]
  tauto

theorem mem_deleteOp {ops : List OpRow} {sid e : String} {o : OpRow} :
    o ∈ deleteOp ops sid e ↔
      o ∈ ops ∧ ¬(o.subscriptionId = sid ∧ o.event = e) := by
  simp [deleteOp, opKeyEq, List.mem_filter]
  tauto

theorem mem_putSub {subs : List SubRow} {x r : SubRow} :
    r ∈ putSub subs x ↔
      (r ∈ subs ∧ ¬(r.event = x.event ∧ r.subscriptionId = x.subscriptionId))
        ∨ r = x := by
  simp [putSub, List.mem_append, mem_deleteSub]

theorem mem_putOp {ops : List OpRow} {x o : OpRow} :
    o ∈ putOp ops x ↔
      (o ∈ ops ∧ ¬(o.subscriptionId = x.subscriptionId ∧ o.event = x.event))
        ∨ o = x := by
  simp [putOp, List.mem_append, mem_deleteOp]

theorem mem_batchDeleteKeys_subs (keys : List (String × String)) :
    ∀ (st : SubState) (r : SubRow),
      r ∈ (batchDeleteKeys st keys).subs ↔
        r ∈ st.subs ∧
          ∀ k ∈ keys, ¬(r.event = k.1 ∧ r.subscriptionId = k.2) := by
  induction keys with
  | nil => intro st r; simp [batchDeleteKeys]
  | cons k ks ih =>
    intro st r
    obtain ⟨e, sid⟩ := k
    simp only [batchDeleteKeys, ih, mem_deleteSub, List.mem_cons]
    constructor
    · rintro ⟨⟨hr, hk⟩, hks⟩
      refine ⟨hr, ?_⟩
      rintro k' (rfl | hk')
      · exact hk
      · exact hks k' hk'
    · rintro ⟨hr, hall⟩
      exact ⟨⟨hr, hall _ (Or.inl rfl)⟩, fun k' hk' => hall k' (Or.inr hk')⟩

theorem mem_batchDeleteKeys_ops (keys : List (String × String)) :
    ∀ (st : SubState) (o : OpRow),
      o ∈ (batchDeleteKeys st keys).ops ↔
        o ∈ st.ops ∧
          ∀ k ∈ keys, ¬(o.subscriptionId = k.2 ∧ o.event = k.1) := by
  induction keys with
  | nil => intro st o; simp [batchDeleteKeys]
  | cons k ks ih =>
    intro st o
    obtain ⟨e, sid⟩ := k
    simp only [batchDeleteKeys, ih, mem_deleteOp, List.mem_cons]
    constructor
    · rintro ⟨⟨ho, hk⟩, hks⟩
      refine ⟨ho, ?_⟩
      rintro k' (rfl | hk')
      · exact hk
      · exact hks k' hk'
    · rintro ⟨ho, hall⟩
      exact ⟨⟨ho, hall _ (Or.inl rfl)⟩, fun k' hk' => hall k' (Or.inr hk')⟩

theorem batchDeleteKeys_subs_eq (keys : List (String × String)) :
    ∀ st : SubState,
      (batchDeleteKeys st keys).subs =
        st.subs.filter
          (fun r => !(keys.any (fun k => subKeyEq k.1 k.2 r))) := by
  induction keys with
  | nil =>
    intro st
    simp [batchDeleteKeys]
  | cons k ks ih =>
    intro st
    obtain ⟨e, sid⟩ := k
    simp only [batchDeleteKeys, ih, deleteSub, List.filter_filter]
    refine List.filter_congr ?_
    intro r _
    simp [List.any_cons, Bool.not_or, Bool.and_comm]

theorem batchDeleteKeys_ops_eq (keys : List (String × String)) :
    ∀ st : SubState,
      (batchDeleteKeys st keys).ops =
        st.ops.filter
          (fun o => !(keys.any (fun k => opKeyEq k.2 k.1 o))) := by
  induction keys with
  | nil =>
    intro st
    simp [batchDeleteKeys]
  | cons k ks ih =>
    intro st
    obtain ⟨e, sid⟩ := k
    simp only [batchDeleteKeys, ih, deleteOp, List.filter_filter]
    refine List.filter_congr ?_
    intro o _
    simp [List.any_cons, Bool.not_or, Bool.and_comm]

/-! ## Claim C5: `unsubscribe` is an exact, atomic dual-index delete -/

/-- C5: for every subscriber record, `unsubscribe` deletes exactly the one
`(event, subscriptionId)` pair — with
`subscriptionId = connection.id ++ ":" ++ operationId` — from both indexes,
touching no other row, and since the two deletes form one
`TransactWriteItemsCommand` the only observable states are "neither index
row deleted" and "both deleted". -/
theorem unsubscribe_atomic_exact (st : SubState) (s : Subscriber) :
    (∀ r, r ∈ (unsubscribe st s).subs ↔
        r ∈ st.subs ∧
          ¬(r.event = s.event ∧
            r.subscriptionId =
              generateSubscriptionId s.connection.id s.operationId)) ∧
    (∀ o, o ∈ (unsubscribe st s).ops ↔
        o ∈ st.ops ∧
          ¬(o.subscriptionId =
              generateSubscriptionId s.connection.id s.operationId ∧
            o.event = s.event)) ∧
    (∀ st' ∈ unsubscribeOutcomes st s, st' = st ∨ st' = unsubscribe st s) := by
  refine ⟨?_, ?_, ?_⟩
  · intro r
    simpa [unsubscribe] using mem_deleteSub
  · intro o
    simpa [unsubscribe] using mem_deleteOp
  · intro st' hst'
    simpa [unsubscribeOutcomes] using hst'

/-- Witness for C5 at a concrete state and subscriber. -/
theorem unsubscribe_atomic_exact_witness :
    mineRowE ∈ stSmall.subs ∧
      mineRowE ∉
        (unsubscribe stSmall
          ⟨{ conn0 with id := "a" }, "op", "E"⟩).subs ∧
      otherRowE 0 ∈
        (unsubscribe stSmall
          ⟨{ conn0 with id := "a" }, "op", "E"⟩).subs := by
  have h := unsubscribe_atomic_exact stSmall ⟨{ conn0 with id := "a" }, "op", "E"⟩
  refine ⟨by decide, ?_, ?_⟩
  · rw [h.1 mineRowE]
    decide
  · rw [h.1 (otherRowE 0)]
    decide

/-! ## Claim C8: `sendToConnection` swallows transport errors -/

/-- C8: `sendToConnection` makes exactly one push attempt and always returns
normally to its caller: a 410 (permanently gone) failure triggers
`unregisterConnection` — which deletes the connection row and cascades into
`unsubscribeAllByConnectionId` — while any other failure (and success)
leaves the state unchanged; no outcome is rethrown and none is retried. -/
theorem sendToConnection_swallows (st : CMState) (conn : Connection)
    (outcome : TransportResult) :
    (sendToConnection st conn outcome).2 = 1 ∧
    (∃ st', (sendToConnection st conn outcome).1 = SendReturn.returned st') ∧
    (sendToConnection st conn (TransportResult.failed (some 410))).1 =
      SendReturn.returned (unregisterConnection st conn.id) ∧
    (∀ code, code ≠ some 410 →
      (sendToConnection st conn (TransportResult.failed code)).1 =
        SendReturn.returned st) ∧
    (sendToConnection st conn TransportResult.delivered).1 =
      SendReturn.returned st ∧
    (unregisterConnection st conn.id).connections =
      st.connections.filter (fun c => !(c.id == conn.id)) ∧
    (unregisterConnection st conn.id).subState =
      unsubscribeAllByConnectionId st.subState conn.id := by
  refine ⟨?_, ?_, ?_, ?_, rfl, rfl, rfl⟩
  · cases outcome with
    | delivered => rfl
    | failed code =>
      simp only [sendToConnection]
      split <;> rfl
  · cases outcome with
    | delivered => exact ⟨st, rfl⟩
    | failed code =>
      simp only [sendToConnection]
      split
      · exact ⟨_, rfl⟩
      · exact ⟨st, rfl⟩
  · simp [sendToConnection]
  · intro code hcode
    simp only [sendToConnection]
    rw [if_neg]
    simpa using hcode

/-- Witness for C8: a non-410 failure at a concrete state returns normally
with the state untouched. -/
theorem sendToConnection_swallows_witness :
    (sendToConnection cm0 conn0 (TransportResult.failed none)).1 =
      SendReturn.returned cm0 :=
  (sendToConnection_swallows cm0 conn0 TransportResult.delivered).2.2.2.1 none
    (by simp)

/-! ## Claims C7 and C10: `registerConnection` vs `hydrateConnection` -/

/-- When every read returns the same row, `hydrateConnection` finds it on the
first attempt and returns it unless its ttl has elapsed. -/
theorem hydrateConnection_const (c : Connection) (rc t : Nat) :
    (hydrateConnection (fun _ => some c) rc t).1 =
      if isTTLExpired c.ttl t then HydrateResult.connectionNotFound
      else HydrateResult.found c := by
  simp only [hydrateConnection, hydrateLoop]
  split <;> simp_all

/-- C7: hydrating a connection immediately after registering it — every store
read returning the written row, the ttl lease not yet elapsed — yields the
stored row, whose `data` is exactly the registered
`{endpoint, context: {}, isInitialized: false}` (and equals the returned
connection's `data`). -/
theorem registerConnection_hydrateConnection_roundtrip
    (connectionId endpoint : String) (cfg : Option Nat) (now : Nat)
    (nowStr : String) (retryCount tNow : Nat)
    (hfresh : isTTLExpired
      (registerConnection connectionId endpoint cfg now nowStr).2.ttl tNow
        = false) :
    (hydrateConnection
        (fun _ => some (registerConnection connectionId endpoint cfg now nowStr).2)
        retryCount tNow).1 =
      HydrateResult.found
        (registerConnection connectionId endpoint cfg now nowStr).2 ∧
    (registerConnection connectionId endpoint cfg now nowStr).2.data =
      { endpoint := endpoint, context := [], isInitialized := false } ∧
    (registerConnection connectionId endpoint cfg now nowStr).2.data =
      (registerConnection connectionId endpoint cfg now nowStr).1.data := by
  refine ⟨?_, rfl, rfl⟩
  rw [hydrateConnection_const, hfresh]
  rfl

/-- Witness for C7 at concrete values (ttl lease 7200 taken at time 5,
hydrated at time 5). -/
theorem registerConnection_hydrateConnection_roundtrip_witness :
    isTTLExpired (registerConnection "c1" "e" (some 7200) 5 "d").2.ttl 5
        = false ∧
      (hydrateConnection
          (fun _ => some (registerConnection "c1" "e" (some 7200) 5 "d").2)
          0 5).1 =
        HydrateResult.found (registerConnection "c1" "e" (some 7200) 5 "d").2 :=
  ⟨by decide,
   (registerConnection_hydrateConnection_roundtrip "c1" "e" (some 7200) 5 "d"
      0 5 (by decide)).1⟩

/-- C10: the `Connection` value returned by `registerConnection` carries only
`{id, data}` — no `ttl` and no `createdAt` — while the stored row carries
`createdAt` and, when the ttl lease is enabled, a fresh `ttl`; hence the
returned object differs from the row a subsequent `hydrateConnection` of the
same id returns. -/
theorem registerConnection_return_omits_ttl
    (connectionId endpoint : String) (cfg : Option Nat) (now : Nat)
    (nowStr : String) :
    (registerConnection connectionId endpoint cfg now nowStr).1.ttl = none ∧
    (registerConnection connectionId endpoint cfg now nowStr).1.createdAt
        = none ∧
    (registerConnection connectionId endpoint cfg now nowStr).2.createdAt
        = some nowStr ∧
    (∀ lease, cfg = some lease →
      (registerConnection connectionId endpoint cfg now nowStr).2.ttl =
        some (computeTTL lease now)) ∧
    (registerConnection connectionId endpoint cfg now nowStr).1 ≠
      (registerConnection connectionId endpoint cfg now nowStr).2 ∧
    (∀ rc tNow,
      isTTLExpired
          (registerConnection connectionId endpoint cfg now nowStr).2.ttl tNow
          = false →
      (hydrateConnection
          (fun _ =>
            some (registerConnection connectionId endpoint cfg now nowStr).2)
          rc tNow).1 =
        HydrateResult.found
          (registerConnection connectionId endpoint cfg now nowStr).2) := by
  refine ⟨rfl, rfl, rfl, ?_, ?_, ?_⟩
  · rintro lease rfl
    rfl
  · intro h
    exact Option.noConfusion (congrArg Connection.createdAt h)
  · intro rc tNow hfresh
    rw [hydrateConnection_const, hfresh]
    rfl

/-- Witness for C10 with the ttl lease enabled. -/
theorem registerConnection_return_omits_ttl_witness :
    (registerConnection "c1" "e" (some 7200) 5 "d").2.ttl = some 7205 ∧
      (registerConnection "c1" "e" (some 7200) 5 "d").1 ≠
        (registerConnection "c1" "e" (some 7200) 5 "d").2 := by
  have h := registerConnection_return_omits_ttl "c1" "e" (some 7200) 5 "d"
  exact ⟨h.2.2.2.1 7200 rfl, h.2.2.2.2.1⟩

/-! ## Claim C3: `subscribe` writes mirrored row pairs and preserves the
cross-index invariant -/

theorem mem_subPairs_applyPut (st : SubState) (conn : Connection)
    (op : Operation) (sid : String) (tf : Option Nat) (name : String)
    (s1 e1 : String) (t1 : Option Nat) :
    (s1, e1, t1) ∈ subPairs (applyPut st conn op sid tf name) ↔
      ((s1, e1, t1) ∈ subPairs st ∧ ¬(s1 = sid ∧ e1 = name)) ∨
        (s1 = sid ∧ e1 = name ∧ t1 = tf) := by
  simp only [subPairs, applyPut, List.mem_map]
  constructor
  · rintro ⟨r, hr, hp⟩
    rw [mem_putSub] at hr
    obtain ⟨rfl, rfl, rfl⟩ := Prod.mk.injEq .. ▸ hp
    rcases hr with ⟨hr, hk⟩ | rfl
    · exact Or.inl ⟨⟨r, hr, rfl⟩, fun hc => hk ⟨hc.2, hc.1⟩⟩
    · exact Or.inr ⟨rfl, rfl, rfl⟩
  · rintro (⟨⟨r, hr, hp⟩, hk⟩ | ⟨h1, h2, h3⟩)
    · obtain ⟨rfl, rfl, rfl⟩ := Prod.mk.injEq .. ▸ hp
      exact ⟨r, mem_putSub.mpr (Or.inl ⟨hr, fun hc => hk ⟨hc.2, hc.1⟩⟩), rfl⟩
    · exact ⟨mkSubRow conn op sid tf name, mem_putSub.mpr (Or.inr rfl),
        by simp [mkSubRow, h1, h2, h3]⟩

theorem mem_opPairs_applyPut (st : SubState) (conn : Connection)
    (op : Operation) (sid : String) (tf : Option Nat) (name : String)
    (s1 e1 : String) (t1 : Option Nat) :
    (s1, e1, t1) ∈ opPairs (applyPut st conn op sid tf name) ↔
      ((s1, e1, t1) ∈ opPairs st ∧ ¬(s1 = sid ∧ e1 = name)) ∨
        (s1 = sid ∧ e1 = name ∧ t1 = tf) := by
  simp only [opPairs, applyPut, List.mem_map]
  constructor
  · rintro ⟨o, ho, hp⟩
    rw [mem_putOp] at ho
    obtain ⟨rfl, rfl, rfl⟩ := Prod.mk.injEq .. ▸ hp
    rcases ho with ⟨ho, hk⟩ | rfl
    · exact Or.inl ⟨⟨o, ho, rfl⟩, hk⟩
    · exact Or.inr ⟨rfl, rfl, rfl⟩
  · rintro (⟨⟨o, ho, hp⟩, hk⟩ | ⟨h1, h2, h3⟩)
    · obtain ⟨rfl, rfl, rfl⟩ := Prod.mk.injEq .. ▸ hp
      exact ⟨o, mem_putOp.mpr (Or.inl ⟨ho, hk⟩), rfl⟩
    · exact ⟨mkOpRow sid tf name, mem_putOp.mpr (Or.inr rfl),
        by simp [mkOpRow, h1, h2, h3]⟩

theorem pairInv_applyPut (st : SubState) (conn : Connection) (op : Operation)
    (sid : String) (tf : Option Nat) (name : String) (h : pairInv st) :
    pairInv (applyPut st conn op sid tf name) := by
  constructor
  · rintro ⟨s1, e1, t1⟩ hp
    rw [mem_subPairs_applyPut] at hp
    rw [mem_opPairs_applyPut]
    rcases hp with ⟨hmem, hk⟩ | hnew
    · exact Or.inl ⟨h.1 _ hmem, hk⟩
    · exact Or.inr hnew
  · rintro ⟨s1, e1, t1⟩ hp
    rw [mem_opPairs_applyPut] at hp
    rw [mem_subPairs_applyPut]
    rcases hp with ⟨hmem, hk⟩ | hnew
    · exact Or.inl ⟨h.2 _ hmem, hk⟩
    · exact Or.inr hnew

theorem pairInv_applyPut_foldl (conn : Connection) (op : Operation)
    (sid : String) (tf : Option Nat) :
    ∀ (names : List String) (st : SubState), pairInv st →
      pairInv (names.foldl (fun s name => applyPut s conn op sid tf name) st) := by
  intro names
  induction names with
  | nil => intro st h; simpa using h
  | cons n ns ih =>
    intro st h
    simpa using ih (applyPut st conn op sid tf n)
      (pairInv_applyPut st conn op sid tf n h)

theorem row_mem_applyPut_self (st : SubState) (conn : Connection)
    (op : Operation) (sid : String) (tf : Option Nat) (name : String) :
    mkSubRow conn op sid tf name ∈ (applyPut st conn op sid tf name).subs ∧
      mkOpRow sid tf name ∈ (applyPut st conn op sid tf name).ops :=
  ⟨mem_putSub.mpr (Or.inr rfl), mem_putOp.mpr (Or.inr rfl)⟩

theorem row_mem_applyPut_preserve (st : SubState) (conn : Connection)
    (op : Operation) (sid : String) (tf : Option Nat) (name name' : String)
    (h1 : mkSubRow conn op sid tf name ∈ st.subs)
    (h2 : mkOpRow sid tf name ∈ st.ops) :
    mkSubRow conn op sid tf name ∈ (applyPut st conn op sid tf name').subs ∧
      mkOpRow sid tf name ∈ (applyPut st conn op sid tf name').ops := by
  by_cases hn : name = name'
  · subst hn
    exact row_mem_applyPut_self st conn op sid tf name
  · constructor
    · refine mem_putSub.mpr (Or.inl ⟨h1, fun hc => hn ?_⟩)
      simpa [mkSubRow] using hc.1
    · refine mem_putOp.mpr (Or.inl ⟨h2, fun hc => hn ?_⟩)
      simpa [mkOpRow] using hc.2

theorem row_mem_applyPut_foldl_preserve (conn : Connection) (op : Operation)
    (sid : String) (tf : Option Nat) (name : String) :
    ∀ (names : List String) (st : SubState),
      mkSubRow conn op sid tf name ∈ st.subs →
      mkOpRow sid tf name ∈ st.ops →
      mkSubRow conn op sid tf name ∈
          (names.foldl (fun s n => applyPut s conn op sid tf n) st).subs ∧
        mkOpRow sid tf name ∈
          (names.foldl (fun s n => applyPut s conn op sid tf n) st).ops := by
  intro names
  induction names with
  | nil => intro st h1 h2; exact ⟨h1, h2⟩
  | cons n ns ih =>
    intro st h1 h2
    have h := row_mem_applyPut_preserve st conn op sid tf name n h1 h2
    simpa using ih (applyPut st conn op sid tf n) h.1 h.2

theorem row_mem_applyPut_foldl (conn : Connection) (op : Operation)
    (sid : String) (tf : Option Nat) :
    ∀ (names : List String) (st : SubState) (name : String), name ∈ names →
      mkSubRow conn op sid tf name ∈
          (names.foldl (fun s n => applyPut s conn op sid tf n) st).subs ∧
        mkOpRow sid tf name ∈
          (names.foldl (fun s n => applyPut s conn op sid tf n) st).ops := by
  intro names
  induction names with
  | nil => intro st name h; simp at h
  | cons n ns ih =>
    intro st name hname
    rcases List.mem_cons.mp hname with rfl | h
    · have h0 := row_mem_applyPut_self st conn op sid tf name
      simpa using row_mem_applyPut_foldl_preserve conn op sid tf name ns
        (applyPut st conn op sid tf name) h0.1 h0.2
    · simpa using ih (applyPut st conn op sid tf n) name h

/-- C3: `subscribe` writes, for each event name, one primary-index row and one
mirrored secondary-index row in its single batch; both carry
`subscriptionId = connectionId ++ ":" ++ operationId` and the one shared ttl
snapshot (both omit `ttl` when it is disabled); and the cross-index
invariant — both indexes hold the same `(subscriptionId, event, ttl)`
triples — is preserved. -/
theorem subscribe_dual_writes (st : SubState) (names : List String)
    (conn : Connection) (op : Operation) (cfg : Option Nat) (now : Nat) :
    (∀ name ∈ names,
      mkSubRow conn op (generateSubscriptionId conn.id op.operationId)
          (ttlField cfg now) name ∈ (subscribe st names conn op cfg now).subs ∧
      mkOpRow (generateSubscriptionId conn.id op.operationId)
          (ttlField cfg now) name ∈ (subscribe st names conn op cfg now).ops) ∧
    (∀ name,
      (mkSubRow conn op (generateSubscriptionId conn.id op.operationId)
          (ttlField cfg now) name).subscriptionId =
          generateSubscriptionId conn.id op.operationId ∧
      (mkOpRow (generateSubscriptionId conn.id op.operationId)
          (ttlField cfg now) name).subscriptionId =
          generateSubscriptionId conn.id op.operationId ∧
      (mkSubRow conn op (generateSubscriptionId conn.id op.operationId)
          (ttlField cfg now) name).ttl = ttlField cfg now ∧
      (mkOpRow (generateSubscriptionId conn.id op.operationId)
          (ttlField cfg now) name).ttl = ttlField cfg now) ∧
    (pairInv st → pairInv (subscribe st names conn op cfg now)) ∧
    (cfg = none → ttlField cfg now = none) ∧
    (∀ lease, cfg = some lease →
      ttlField cfg now = some (computeTTL lease now)) := by
  refine ⟨?_, fun name => ⟨rfl, rfl, rfl, rfl⟩, ?_, ?_, ?_⟩
  · intro name hname
    exact row_mem_applyPut_foldl conn op
      (generateSubscriptionId conn.id op.operationId) (ttlField cfg now)
      names st name hname
  · intro h
    exact pairInv_applyPut_foldl conn op
      (generateSubscriptionId conn.id op.operationId) (ttlField cfg now)
      names st h
  · rintro rfl; rfl
  · rintro lease rfl; rfl

/-- Witness for C3: subscribing `["A", "B"]` on the empty state leaves both
mirrored rows present and the invariant intact. -/
theorem subscribe_dual_writes_witness :
    pairInv stEmpty ∧
      mkSubRow conn0 op0 (generateSubscriptionId conn0.id op0.operationId)
          (ttlField (some 100) 7) "A" ∈
        (subscribe stEmpty ["A", "B"] conn0 op0 (some 100) 7).subs ∧
      pairInv (subscribe stEmpty ["A", "B"] conn0 op0 (some 100) 7) := by
  have h := subscribe_dual_writes stEmpty ["A", "B"] conn0 op0 (some 100) 7
  exact ⟨by decide, (h.1 "A" (by decide)).1, h.2.2.1 (by decide)⟩

/-! ## Claim C6: `unsubscribeOperation` removes one operation's rows and is
idempotent -/

/-- C6: assuming the cross-index correspondence (every primary row of the
operation has its mirror in the secondary index, which the dual writes of
`subscribe` maintain), `unsubscribeOperation` removes from both indexes
exactly the rows whose `subscriptionId` equals
`connectionId ++ ":" ++ operationId`, and a second call with no intervening
`subscribe` finds nothing in the secondary index and leaves the state
unchanged. -/
theorem unsubscribeOperation_removes_and_idempotent (st : SubState)
    (cid opId : String)
    (hcorr : ∀ r ∈ st.subs,
      r.subscriptionId = generateSubscriptionId cid opId →
        ∃ o ∈ st.ops,
          o.subscriptionId = r.subscriptionId ∧ o.event = r.event) :
    (∀ r, r ∈ (unsubscribeOperation st cid opId).subs ↔
        r ∈ st.subs ∧
          r.subscriptionId ≠ generateSubscriptionId cid opId) ∧
    (∀ o, o ∈ (unsubscribeOperation st cid opId).ops ↔
        o ∈ st.ops ∧
          o.subscriptionId ≠ generateSubscriptionId cid opId) ∧
    unsubscribeOperation (unsubscribeOperation st cid opId) cid opId =
      unsubscribeOperation st cid opId := by
  have hops : ∀ o, o ∈ (unsubscribeOperation st cid opId).ops ↔
      o ∈ st.ops ∧ o.subscriptionId ≠ generateSubscriptionId cid opId := by
    intro o
    simp only [unsubscribeOperation, mem_batchDeleteKeys_ops, List.mem_map,
      List.mem_filter, beq_iff_eq]
    constructor
    · rintro ⟨ho, hall⟩
      refine ⟨ho, fun hsid => ?_⟩
      exact hall (o.event, o.subscriptionId) ⟨o, ⟨ho, hsid⟩, rfl⟩ ⟨rfl, rfl⟩
    · rintro ⟨ho, hsid⟩
      refine ⟨ho, ?_⟩
      rintro ⟨e, s⟩ ⟨o', ⟨ho', hsid'⟩, hk⟩ ⟨hc1, hc2⟩
      obtain ⟨rfl, rfl⟩ := Prod.mk.injEq .. ▸ hk
      exact hsid (hc1.trans hsid')
  refine ⟨?_, hops, ?_⟩
  · intro r
    simp only [unsubscribeOperation, mem_batchDeleteKeys_subs, List.mem_map,
      List.mem_filter, beq_iff_eq]
    constructor
    · rintro ⟨hr, hall⟩
      refine ⟨hr, fun hsid => ?_⟩
      obtain ⟨o, ⟨ho, hosid, hoev⟩⟩ := hcorr r hr hsid
      exact hall (o.event, o.subscriptionId)
        ⟨o, ⟨ho, hosid.trans hsid⟩, rfl⟩ ⟨hoev.symm, hosid.symm⟩
    · rintro ⟨hr, hsid⟩
      refine ⟨hr, ?_⟩
      rintro ⟨e, s⟩ ⟨o', ⟨ho', hsid'⟩, hk⟩ ⟨hc1, hc2⟩
      obtain ⟨rfl, rfl⟩ := Prod.mk.injEq .. ▸ hk
      exact hsid (hc2.trans hsid')
  · have hnil : (unsubscribeOperation st cid opId).ops.filter
        (fun o => o.subscriptionId == generateSubscriptionId cid opId) = [] := by
      rw [List.filter_eq_nil_iff]
      intro o ho
      simp only [beq_iff_eq]
      exact ((hops o).mp ho).2
    conv_lhs => rw [unsubscribeOperation, hnil]
    rfl

/-- Witness for C6 at a concrete consistent state. -/
theorem unsubscribeOperation_removes_and_idempotent_witness :
    rowC6 ∉ (unsubscribeOperation stC6 "c1" "op1").subs ∧
      unsubscribeOperation (unsubscribeOperation stC6 "c1" "op1") "c1" "op1" =
        unsubscribeOperation stC6 "c1" "op1" := by
  have h := unsubscribeOperation_removes_and_idempotent stC6 "c1" "op1"
    (by decide)
  refine ⟨fun hmem => ?_, h.2.2⟩
  exact ((h.1 rowC6).mp hmem).2 rfl

/-! ## Lemmas about the scan loop of `unsubscribeAllByConnectionId` -/

/-- Every `(event, subscriptionId)` key the scan loop hands to
`batchDeleteKeys` has the scanned connection id as a prefix of its
subscription id. -/
theorem key_mem_matches {cid : String} {l : List SubRow} {k : String × String}
    (hk : k ∈ (l.filter (scanMatches cid)).map
      (fun r => (r.event, r.subscriptionId))) :
    strBeginsWith cid k.2 = true := by
  obtain ⟨i, hi, hik⟩ := List.mem_map.mp hk
  subst hik
  exact (List.mem_filter.mp hi).2

/-- A row that does not match the prefix filter survives the batch delete of
one scanned page. -/
theorem mem_batch_of_not_matches {cid : String} {l : List SubRow}
    {st : SubState} {r : SubRow} (hr : r ∈ st.subs)
    (hm : scanMatches cid r = false) :
    r ∈ (batchDeleteKeys st ((l.filter (scanMatches cid)).map
      (fun x => (x.event, x.subscriptionId)))).subs := by
  rw [mem_batchDeleteKeys_subs]
  refine ⟨hr, ?_⟩
  rintro k hk ⟨hc1, hc2⟩
  have hpfx := key_mem_matches hk
  rw [← hc2] at hpfx
  have hm' : strBeginsWith cid r.subscriptionId = false := hm
  rw [hpfx] at hm'
  exact Bool.noConfusion hm'

/-- A secondary-index row whose subscription id does not start with the
connection id survives the batch delete of one scanned page. -/
theorem mem_batch_ops_of_not_matches {cid : String} {l : List SubRow}
    {st : SubState} {o : OpRow} (ho : o ∈ st.ops)
    (hm : strBeginsWith cid o.subscriptionId = false) :
    o ∈ (batchDeleteKeys st ((l.filter (scanMatches cid)).map
      (fun x => (x.event, x.subscriptionId)))).ops := by
  rw [mem_batchDeleteKeys_ops]
  refine ⟨ho, ?_⟩
  rintro k hk ⟨hc1, hc2⟩
  have hpfx := key_mem_matches hk
  rw [← hc1] at hpfx
  rw [hpfx] at hm
  exact Bool.noConfusion hm

/-- The scan loop preserves every row whose subscription id does not start
with the scanned connection id. -/
theorem unsubAllGo_frame (cid : String) (st : SubState) (l : List SubRow) :
    (∀ r ∈ st.subs, scanMatches cid r = false →
        r ∈ (unsubAllGo cid st l).subs) ∧
    (∀ o ∈ st.ops, strBeginsWith cid o.subscriptionId = false →
        o ∈ (unsubAllGo cid st l).ops) := by
  induction st, l using unsubAllGo.induct cid with
  | case1 st l items hempty =>
    rw [unsubAllGo, if_pos hempty]
    exact ⟨fun r hr _ => hr, fun o ho _ => ho⟩
  | case2 st l items hempty hle =>
    rw [unsubAllGo, if_neg hempty, dif_pos hle]
    exact ⟨fun r hr hm => mem_batch_of_not_matches hr hm,
      fun o ho hm => mem_batch_ops_of_not_matches ho hm⟩
  | case3 st l items hempty st' hgt ih =>
    rw [unsubAllGo, if_neg hempty, dif_neg hgt]
    exact ⟨fun r hr hm => ih.1 r (mem_batch_of_not_matches hr hm) hm,
      fun o ho hm => ih.2 o (mem_batch_ops_of_not_matches ho hm) hm⟩

/-- The scan loop only deletes rows: both resulting indexes are sub-multisets
of the originals. -/
theorem unsubAllGo_subset (cid : String) (st : SubState) (l : List SubRow) :
    (∀ r, r ∈ (unsubAllGo cid st l).subs → r ∈ st.subs) ∧
    (∀ o, o ∈ (unsubAllGo cid st l).ops → o ∈ st.ops) := by
  induction st, l using unsubAllGo.induct cid with
  | case1 st l items hempty =>
    rw [unsubAllGo, if_pos hempty]
    exact ⟨fun r hr => hr, fun o ho => ho⟩
  | case2 st l items hempty hle =>
    rw [unsubAllGo, if_neg hempty, dif_pos hle]
    exact ⟨fun r hr => (mem_batchDeleteKeys_subs _ _ _ |>.mp hr).1,
      fun o ho => (mem_batchDeleteKeys_ops _ _ _ |>.mp ho).1⟩
  | case3 st l items hempty st' hgt ih =>
    rw [unsubAllGo, if_neg hempty, dif_neg hgt]
    exact
      ⟨fun r hr => (mem_batchDeleteKeys_subs _ _ _ |>.mp (ih.1 r hr)).1,
       fun o ho => (mem_batchDeleteKeys_ops _ _ _ |>.mp (ih.2 o ho)).1⟩

/-! ## Claim C9: bulk cleanup and prefix-ambiguous connection ids -/

/-- Counterexample to C9 as stated: connection ids `"a"` and `"ab"` are
distinct, yet `unsubscribeAllByConnectionId "a"` deletes the subscription
row of connection `"ab"` from both indexes, because
`"a"` is a string prefix of the composite key `"ab:op"`. -/
theorem unsubAll_beginsWith_counterexample :
    ("a" : String) ≠ "ab" ∧
      rowAB.subscriptionId = generateSubscriptionId "ab" "op" ∧
      rowAB ∈ stAB.subs ∧ mirrorOf rowAB ∈ stAB.ops ∧
      (unsubscribeAllByConnectionId stAB "a").subs = [] ∧
      (unsubscribeAllByConnectionId stAB "a").ops = [] := by
  refine ⟨by decide, rfl, by decide, by decide, ?_, ?_⟩
  · show (unsubAllGo "a" stAB stAB.subs).subs = []
    rw [unsubAllGo]
    decide
  · show (unsubAllGo "a" stAB stAB.subs).ops = []
    rw [unsubAllGo]
    decide

/-- C9 (amended): `unsubscribeAllByConnectionId c1` leaves the rows of
another connection `c2` unchanged in both indexes provided `c1` is not a
string prefix of `c2`'s composite subscription ids — without that proviso
the claim fails, as prefix-ambiguous ids are matched by `begins_with`.  The
last two conjuncts state that nothing is ever added. -/
theorem unsubAll_frame_other_connection (st : SubState) (c1 c2 : String) :
    (∀ r ∈ st.subs,
      (∃ opId, r.subscriptionId = generateSubscriptionId c2 opId) →
        strBeginsWith c1 r.subscriptionId = false →
        r ∈ (unsubscribeAllByConnectionId st c1).subs) ∧
    (∀ o ∈ st.ops,
      (∃ opId, o.subscriptionId = generateSubscriptionId c2 opId) →
        strBeginsWith c1 o.subscriptionId = false →
        o ∈ (unsubscribeAllByConnectionId st c1).ops) ∧
    (∀ r, r ∈ (unsubscribeAllByConnectionId st c1).subs → r ∈ st.subs) ∧
    (∀ o, o ∈ (unsubscribeAllByConnectionId st c1).ops → o ∈ st.ops) := by
  have hframe := unsubAllGo_frame c1 st st.subs
  have hsubset := unsubAllGo_subset c1 st st.subs
  exact ⟨fun r hr _ hpfx => hframe.1 r hr hpfx,
    fun o ho _ hpfx => hframe.2 o ho hpfx,
    hsubset.1, hsubset.2⟩

/-- Witness for the amended C9: cleaning up connection `"a"` leaves the row
of connection `"b0"` in place. -/
theorem unsubAll_frame_other_connection_witness :
    otherRowE 0 ∈ (unsubscribeAllByConnectionId stSmall "a").subs :=
  (unsubAll_frame_other_connection stSmall "a" "b0").1
    (otherRowE 0) (by decide) ⟨"op", rfl⟩ (by decide)

/-! ## Completeness of the scan loop when no page filters to nothing -/

theorem filter_isEmpty_iff_all {α : Type} {p : α → Bool} {l : List α} :
    (l.filter p).isEmpty = true ↔ ∀ x ∈ l, p x = false := by
  simp [List.isEmpty_iff, List.filter_eq_nil_iff]

/-- On rows known to land in the scanned chunk when they match, deletion by
the chunk's matched keys coincides with the prefix filter itself. -/
theorem any_key_eq_scanMatches (cid : String) (chunk : List SubRow)
    (r : SubRow) (hin : scanMatches cid r = true → r ∈ chunk) :
    ((chunk.filter (scanMatches cid)).map
        (fun x => (x.event, x.subscriptionId))).any
      (fun k => subKeyEq k.1 k.2 r) = scanMatches cid r := by
  cases hm : scanMatches cid r with
  | false =>
    rw [List.any_eq_false]
    intro k hk hkeq
    obtain ⟨i, hi, hik⟩ := List.mem_map.mp hk
    subst hik
    have hmi : strBeginsWith cid i.subscriptionId = true :=
      (List.mem_filter.mp hi).2
    have hsid : r.subscriptionId = i.subscriptionId := by
      have := (Bool.and_eq_true _ _ |>.mp hkeq).2
      simpa using this
    have hm' : strBeginsWith cid r.subscriptionId = false := hm
    rw [hsid, hmi] at hm'
    exact Bool.noConfusion hm'
  | true =>
    rw [List.any_eq_true]
    refine ⟨(r.event, r.subscriptionId),
      List.mem_map.mpr ⟨r, List.mem_filter.mpr ⟨hin hm, hm⟩, rfl⟩, ?_⟩
    simp [subKeyEq]

/-- The secondary-index analogue of `any_key_eq_scanMatches`, via the
cross-index correspondence. -/
theorem any_key_eq_beginsWith_ops (cid : String) (chunk : List SubRow)
    (o : OpRow)
    (hin : strBeginsWith cid o.subscriptionId = true →
      ∃ r ∈ chunk, r.subscriptionId = o.subscriptionId ∧ r.event = o.event) :
    ((chunk.filter (scanMatches cid)).map
        (fun x => (x.event, x.subscriptionId))).any
      (fun k => opKeyEq k.2 k.1 o) = strBeginsWith cid o.subscriptionId := by
  cases hm : strBeginsWith cid o.subscriptionId with
  | false =>
    rw [List.any_eq_false]
    intro k hk hkeq
    obtain ⟨i, hi, hik⟩ := List.mem_map.mp hk
    subst hik
    have hmi : strBeginsWith cid i.subscriptionId = true :=
      (List.mem_filter.mp hi).2
    have hsid : o.subscriptionId = i.subscriptionId := by
      have := (Bool.and_eq_true _ _ |>.mp hkeq).1
      simpa using this
    rw [hsid, hmi] at hm
    exact Bool.noConfusion hm
  | true =>
    obtain ⟨r, hr, hps, hpe⟩ := hin hm
    have hmr : scanMatches cid r = true := by
      have : strBeginsWith cid r.subscriptionId = true := by rw [hps]; exact hm
      exact this
    rw [List.any_eq_true]
    refine ⟨(r.event, r.subscriptionId),
      List.mem_map.mpr ⟨r, List.mem_filter.mpr ⟨hr, hmr⟩, rfl⟩, ?_⟩
    simp [opKeyEq, hps, hpe]

/-- When every scanned page that still has matching rows behind it keeps at
least one match after filtering, the scan loop deletes exactly the
prefix-matching rows from the primary index and — given the cross-index
correspondence — exactly the prefix-matching rows from the secondary
index. -/
theorem unsubAllGo_complete (cid : String) (st : SubState) (l : List SubRow) :
    scanCoversB cid l = true →
    (∀ r ∈ st.subs, scanMatches cid r = true → r ∈ l) →
    (∀ o ∈ st.ops, strBeginsWith cid o.subscriptionId = true →
      ∃ r ∈ st.subs, r.subscriptionId = o.subscriptionId ∧ r.event = o.event) →
    (unsubAllGo cid st l).subs =
        st.subs.filter (fun r => !scanMatches cid r) ∧
    (unsubAllGo cid st l).ops =
        st.ops.filter (fun o => !strBeginsWith cid o.subscriptionId) := by
  induction st, l using unsubAllGo.induct cid with
  | case1 st l items hempty =>
    intro hcov hsubs hops
    have hitems : items = (l.take 12).filter (scanMatches cid) := rfl
    clear_value items
    subst hitems
    rw [unsubAllGo, if_pos hempty]
    have hnomatch : ∀ x ∈ l, scanMatches cid x = false := by
      by_cases hA : (l.filter (scanMatches cid)).isEmpty = true
      · intro x hx
        cases hm : scanMatches cid x with
        | false => rfl
        | true =>
          exfalso
          rw [filter_isEmpty_iff_all] at hA
          have := hA x hx
          rw [hm] at this
          exact Bool.noConfusion this
      · exfalso
        by_cases hB : l.length ≤ 12
        · apply hA
          rw [filter_isEmpty_iff_all] at hempty ⊢
          intro x hx
          exact hempty x (by rw [List.take_of_length_le hB]; exact hx)
        · rw [scanCoversB, if_neg hA, dif_neg hB] at hcov
          have h1 := (Bool.and_eq_true _ _ |>.mp hcov).1
          rw [hempty] at h1
          simp at h1
    constructor
    · refine (List.filter_eq_self.mpr ?_).symm
      intro r hr
      cases hm : scanMatches cid r with
      | false => rfl
      | true =>
        exfalso
        have := hnomatch r (hsubs r hr hm)
        rw [hm] at this
        exact Bool.noConfusion this
    · refine (List.filter_eq_self.mpr ?_).symm
      intro o ho
      cases hm : strBeginsWith cid o.subscriptionId with
      | false => rfl
      | true =>
        exfalso
        obtain ⟨r, hr, hps, hpe⟩ := hops o ho hm
        have hmr : scanMatches cid r = true := by
          have : strBeginsWith cid r.subscriptionId = true := by
            rw [hps]; exact hm
          exact this
        have := hnomatch r (hsubs r hr hmr)
        rw [hmr] at this
        exact Bool.noConfusion this
  | case2 st l items hempty hle =>
    intro hcov hsubs hops
    have hitems : items = (l.take 12).filter (scanMatches cid) := rfl
    clear_value items
    subst hitems
    rw [unsubAllGo, if_neg hempty, dif_pos hle]
    rw [batchDeleteKeys_subs_eq, batchDeleteKeys_ops_eq]
    constructor
    · refine List.filter_congr ?_
      intro r hr
      rw [any_key_eq_scanMatches cid (l.take 12) r
        (fun hm => by rw [List.take_of_length_le hle]; exact hsubs r hr hm)]
    · refine List.filter_congr ?_
      intro o ho
      rw [any_key_eq_beginsWith_ops cid (l.take 12) o
        (fun hm => by
          obtain ⟨r, hr, hps, hpe⟩ := hops o ho hm
          have hmr : scanMatches cid r = true := by
            have : strBeginsWith cid r.subscriptionId = true := by
              rw [hps]; exact hm
            exact this
          exact ⟨r, by rw [List.take_of_length_le hle]; exact hsubs r hr hmr,
            hps, hpe⟩)]
  | case3 st l items hempty st' hgt ih =>
    intro hcov hsubs hops
    have hitems : items = (l.take 12).filter (scanMatches cid) := rfl
    clear_value items
    subst hitems
    have hst' : st' = batchDeleteKeys st
        (((l.take 12).filter (scanMatches cid)).map
          (fun r => (r.event, r.subscriptionId))) := rfl
    rw [unsubAllGo, if_neg hempty, dif_neg hgt]
    have hA : ¬((l.filter (scanMatches cid)).isEmpty = true) := by
      intro hA
      apply hempty
      rw [filter_isEmpty_iff_all] at hA ⊢
      intro x hx
      exact hA x (List.take_subset 12 l hx)
    have hcov' : scanCoversB cid (l.drop 12) = true := by
      rw [scanCoversB, if_neg hA, dif_neg hgt] at hcov
      exact (Bool.and_eq_true _ _ |>.mp hcov).2
    have hsubs' : ∀ r ∈ (batchDeleteKeys st
        (((l.take 12).filter (scanMatches cid)).map
          (fun r => (r.event, r.subscriptionId)))).subs,
        scanMatches cid r = true → r ∈ l.drop 12 := by
      intro r hr' hm
      obtain ⟨hr, hcond⟩ := (mem_batchDeleteKeys_subs _ _ _).mp hr'
      have hl : r ∈ l := hsubs r hr hm
      rw [← List.take_append_drop 12 l, List.mem_append] at hl
      rcases hl with hl | hl
      · exfalso
        exact hcond (r.event, r.subscriptionId)
          (List.mem_map.mpr ⟨r, List.mem_filter.mpr ⟨hl, hm⟩, rfl⟩) ⟨rfl, rfl⟩
      · exact hl
    have hops' : ∀ o ∈ (batchDeleteKeys st
        (((l.take 12).filter (scanMatches cid)).map
          (fun r => (r.event, r.subscriptionId)))).ops,
        strBeginsWith cid o.subscriptionId = true →
        ∃ r ∈ (batchDeleteKeys st
          (((l.take 12).filter (scanMatches cid)).map
            (fun r => (r.event, r.subscriptionId)))).subs,
          r.subscriptionId = o.subscriptionId ∧ r.event = o.event := by
      intro o ho' hm
      obtain ⟨ho, hcond⟩ := (mem_batchDeleteKeys_ops _ _ _).mp ho'
      obtain ⟨r, hr, hps, hpe⟩ := hops o ho hm
      refine ⟨r, ?_, hps, hpe⟩
      rw [mem_batchDeleteKeys_subs]
      refine ⟨hr, ?_⟩
      rintro k hk ⟨hc1, hc2⟩
      exact hcond k hk ⟨hps.symm.trans hc2, hpe.symm.trans hc1⟩
    obtain ⟨ih1, ih2⟩ := ih hcov' hsubs' hops'
    rw [ih1, ih2, hst', batchDeleteKeys_subs_eq, batchDeleteKeys_ops_eq,
      List.filter_filter, List.filter_filter]
    constructor
    · refine List.filter_congr ?_
      intro r hr
      cases hm : scanMatches cid r with
      | true => simp
      | false =>
        have hany := any_key_eq_scanMatches cid (l.take 12) r
          (fun hmt => absurd hmt (by rw [hm]; exact Bool.noConfusion))
        rw [hm] at hany
        simp [hany]
    · refine List.filter_congr ?_
      intro o ho
      cases hm : strBeginsWith cid o.subscriptionId with
      | true => simp
      | false =>
        have hany := any_key_eq_beginsWith_ops cid (l.take 12) o
          (fun hmt => absurd hmt (by rw [hm]; exact Bool.noConfusion))
        rw [hm] at hany
        simp [hany]

/-! ## Lemmas about the `subscribersByEvent` iterator -/

/-- `next()` on an iterator whose internal flag is set yields
`{value: [], done: true}` and leaves the state unchanged. -/
theorem sbeNext_done (rows : List SubRow) (name : String) (time start : Nat) :
    sbeNext rows name time ⟨start, true⟩ = (([], true), ⟨start, true⟩) := rfl

/-- `next()` when the query still has rows behind the fetched page: the page
is filtered, the cursor advances, and the internal flag stays unset. -/
theorem sbeNext_lt (rows : List SubRow) (name : String) (time start : Nat)
    (h : start + (((eventRows rows name).drop start).take 50).length <
      (eventRows rows name).length) :
    sbeNext rows name time ⟨start, false⟩ =
      (((((eventRows rows name).drop start).take 50).filter
            (fun r => ttlAlive time r.ttl),
        ((((eventRows rows name).drop start).take 50).filter
            (fun r => ttlAlive time r.ttl)).isEmpty),
       ⟨start + (((eventRows rows name).drop start).take 50).length,
        false⟩) := by
  rw [sbeNext]
  rw [if_neg (by simp)]
  dsimp only
  rw [if_pos h]

/-- `next()` when the fetched page exhausts the query: no continuation
cursor comes back, so the internal flag is set. -/
theorem sbeNext_ge (rows : List SubRow) (name : String) (time start : Nat)
    (h : ¬(start + (((eventRows rows name).drop start).take 50).length <
      (eventRows rows name).length)) :
    sbeNext rows name time ⟨start, false⟩ =
      (((((eventRows rows name).drop start).take 50).filter
            (fun r => ttlAlive time r.ttl),
        ((((eventRows rows name).drop start).take 50).filter
            (fun r => ttlAlive time r.ttl)).isEmpty),
       ⟨start + (((eventRows rows name).drop start).take 50).length,
        true⟩) := by
  rw [sbeNext]
  rw [if_neg (by simp)]
  dsimp only
  rw [if_neg h]

/-- Every row yielded by a `next()` call is a row of the primary index. -/
theorem sbeNext_value_subset (rows : List SubRow) (name : String)
    (time : Nat) (s : SbeIter) :
    ∀ r ∈ (sbeNext rows name time s).1.1, r ∈ rows := by
  intro r hr
  obtain ⟨start, d⟩ := s
  cases d with
  | true =>
    rw [sbeNext_done] at hr
    simp at hr
  | false =>
    by_cases h : start + (((eventRows rows name).drop start).take 50).length <
        (eventRows rows name).length
    · rw [sbeNext_lt rows name time start h] at hr
      have h1 := (List.mem_filter.mp hr).1
      have h2 := List.take_subset _ _ h1
      have h3 := List.drop_subset _ _ h2
      exact (List.mem_filter.mp h3).1
    · rw [sbeNext_ge rows name time start h] at hr
      have h1 := (List.mem_filter.mp hr).1
      have h2 := List.take_subset _ _ h1
      have h3 := List.drop_subset _ _ h2
      exact (List.mem_filter.mp h3).1

/-- Every row of every page the consumer collects is a row of the primary
index. -/
theorem sbeConsume_sound (rows : List SubRow) (name : String) (time : Nat) :
    ∀ (fuel : Nat) (s : SbeIter) (page : List SubRow) (r : SubRow),
      page ∈ sbeConsume rows name time fuel s → r ∈ page → r ∈ rows := by
  intro fuel
  induction fuel with
  | zero =>
    intro s page r h _
    simp [sbeConsume] at h
  | succ n ih =>
    intro s page r hpage hr
    rw [sbeConsume] at hpage
    by_cases hd : (sbeNext rows name time s).1.2
    · rw [if_pos hd] at hpage
      simp at hpage
    · rw [if_neg hd] at hpage
      rcases List.mem_cons.mp hpage with rfl | h
      · exact sbeNext_value_subset rows name time s r hr
      · exact ih _ _ r h hr

/-- When no non-final 50-row page of the partition filters down to nothing,
fully draining the iterator yields exactly the live (non-expired) rows of
the partition, in order. -/
theorem sbeConsume_complete (rows : List SubRow) (name : String) (time : Nat) :
    ∀ (fuel start : Nat),
      sbeCoversB time ((eventRows rows name).drop start) = true →
      ((eventRows rows name).drop start).length < fuel →
      (sbeConsume rows name time fuel ⟨start, false⟩).flatten =
        ((eventRows rows name).drop start).filter
          (fun r => ttlAlive time r.ttl) := by
  intro fuel
  induction fuel with
  | zero =>
    intro start _ hf
    simp at hf
  | succ n ih =>
    intro start hcov hf
    have hlt : ((eventRows rows name).drop start).length =
        (eventRows rows name).length - start := List.length_drop ..
    have htl : (((eventRows rows name).drop start).take 50).length =
        min 50 ((eventRows rows name).drop start).length := List.length_take ..
    rw [sbeConsume]
    by_cases hcur : start + (((eventRows rows name).drop start).take 50).length
        < (eventRows rows name).length
    · -- a continuation cursor comes back: the remainder is longer than 50
      have hlen : 50 < ((eventRows rows name).drop start).length := by omega
      have hpl : (((eventRows rows name).drop start).take 50).length = 50 := by
        omega
      rw [sbeNext_lt rows name time start hcur]
      dsimp only
      have hval : ¬((((eventRows rows name).drop start).take 50).filter
          (fun r => ttlAlive time r.ttl)).isEmpty = true := by
        rw [sbeCoversB, dif_neg (by omega)] at hcov
        have h1 := (Bool.and_eq_true _ _ |>.mp hcov).1
        simp only [Bool.not_eq_true'] at h1
        rw [h1]
        exact Bool.noConfusion
      rw [if_neg hval, hpl]
      have hcov' : sbeCoversB time ((eventRows rows name).drop (start + 50))
          = true := by
        rw [sbeCoversB, dif_neg (by omega)] at hcov
        have h2 := (Bool.and_eq_true _ _ |>.mp hcov).2
        rw [List.drop_drop] at h2
        exact h2
      have hf' : ((eventRows rows name).drop (start + 50)).length < n := by
        have := List.length_drop (start + 50) (eventRows rows name)
        omega
      rw [List.flatten_cons, ih (start + 50) hcov' hf']
      conv_rhs => rw [← List.take_append_drop 50 ((eventRows rows name).drop start)]
      rw [List.filter_append, List.drop_drop]
    · -- the page exhausts the partition
      have hrem : ((eventRows rows name).drop start).length ≤ 50 := by omega
      have htake : ((eventRows rows name).drop start).take 50 =
          (eventRows rows name).drop start := List.take_of_length_le hrem
      rw [sbeNext_ge rows name time start hcur]
      dsimp only
      by_cases hv : ((((eventRows rows name).drop start).take 50).filter
          (fun r => ttlAlive time r.ttl)).isEmpty = true
      · rw [if_pos hv]
        rw [htake] at hv
        rw [List.isEmpty_iff] at hv
        rw [hv]
        rfl
      · rw [if_neg hv]
        have hne : ((eventRows rows name).drop start) ≠ [] := by
          intro h0
          apply hv
          rw [htake, h0]
          rfl
        have hn1 : 1 ≤ n := by
          have : 0 < ((eventRows rows name).drop start).length :=
            List.length_pos.mpr hne
          omega
        obtain ⟨m, rfl⟩ : ∃ m, n = m + 1 := ⟨n - 1, by omega⟩
        rw [sbeConsume]
        rw [sbeNext_done]
        dsimp only
        rw [if_pos rfl]
        rw [htake]
        simp

/-! ## Claim C1: draining `subscribersByEvent` -/

/-- Counterexample to C1 as stated: on a 51-row partition whose first
50-row page is entirely ttl-expired at time 100, the iterator's first
`next()` yields `{value: [], done: true}` even though a continuation cursor
came back (its internal flag is still unset), so consumption stops and the
live row on the second page is never yielded — the drained pages miss a
non-expired indexed row, and the sequence ends before a page without a
continuation cursor was fetched. -/
theorem subscribersByEvent_counterexample :
    (subscribersByEventPages rowsPage2 (fun ev => ev.event) ⟨"A", ""⟩
        100 60).flatten = [] ∧
      (eventRows rowsPage2 "A").filter (fun r => ttlAlive 100 r.ttl) =
        [aliveRowA] ∧
      (sbeNext rowsPage2 "A" 100 ⟨0, false⟩).1.2 = true ∧
      (sbeNext rowsPage2 "A" 100 ⟨0, false⟩).2.done = false := by
  refine ⟨?_, ?_, ?_, ?_⟩ <;> decide

/-- C1 (amended): draining `subscribersByEvent` yields, page by page, the
non-expired subscriber rows indexed under the name extracted from the
event, and ends with the page that returns no continuation cursor —
*provided* every fetched page that does carry a continuation cursor keeps
at least one row after the ttl filter.  Without that proviso the sequence
can end early: a mid-sequence page whose rows are all expired yields
`{value: [], done: true}` while a cursor remains, dropping all later
pages. -/
theorem subscribersByEvent_drains_live_rows (rows : List SubRow)
    (extractor : PubEvent → String) (e : PubEvent) (time fuel : Nat)
    (hcov : sbeCoversB time (eventRows rows (extractor e)) = true)
    (hfuel : (eventRows rows (extractor e)).length < fuel) :
    (subscribersByEventPages rows extractor e time fuel).flatten =
      (eventRows rows (extractor e)).filter (fun r => ttlAlive time r.ttl) := by
  have h := sbeConsume_complete rows (extractor e) time fuel 0
    (by simpa using hcov) (by simpa using hfuel)
  simpa [subscribersByEventPages] using h

/-- Witness for the amended C1 on a two-row partition (one live row, one
expired row): the drained pages are exactly the live rows. -/
theorem subscribersByEvent_drains_live_rows_witness :
    sbeCoversB 100 (eventRows rowsSmall "A") = true ∧
      (subscribersByEventPages rowsSmall (fun ev => ev.event) ⟨"A", ""⟩
          100 3).flatten =
        (eventRows rowsSmall "A").filter (fun r => ttlAlive 100 r.ttl) := by
  have hcov : sbeCoversB 100 (eventRows rowsSmall "A") = true := by
    rw [sbeCoversB]
    decide
  exact ⟨hcov, subscribersByEvent_drains_live_rows rowsSmall
    (fun ev => ev.event) ⟨"A", ""⟩ 100 3 hcov (by decide)⟩

/-! ## Claim C2: `unsubscribeAllByConnectionId` across pages -/

/-- Counterexample to C2 as stated: in a 13-row table whose first scanned
page of 12 rows contains no row of connection `"a"`, the loop hits its
early `return` on the empty filtered page — although a continuation cursor
remains (`12 < 13`) — and leaves the matching 13th row in both indexes:
the call returns the state completely unchanged. -/
theorem unsubscribeAll_counterexample :
    scanMatches "a" mineRowE = true ∧
      mineRowE ∈ stPage2.subs ∧
      12 < stPage2.subs.length ∧
      unsubscribeAllByConnectionId stPage2 "a" = stPage2 := by
  refine ⟨by decide, by decide, by decide, ?_⟩
  show unsubAllGo "a" stPage2 stPage2.subs = stPage2
  rw [unsubAllGo]
  decide

/-- C2 (amended): `unsubscribeAllByConnectionId` deletes from both indexes
every row whose `subscriptionId` begins with the connection id, across all
scan pages, *provided* every scanned page that still has matching rows
behind it keeps at least one match after filtering (when a page filters to
nothing the loop returns early even though a continuation cursor remains)
and the secondary index corresponds to the primary one; afterwards no page
drained from `subscribersByEvent` contains a row of that connection. -/
theorem unsubscribeAll_complete (st : SubState) (cid : String)
    (hcov : scanCoversB cid st.subs = true)
    (hcorr : ∀ o ∈ st.ops, strBeginsWith cid o.subscriptionId = true →
      ∃ r ∈ st.subs, r.subscriptionId = o.subscriptionId ∧ r.event = o.event) :
    (unsubscribeAllByConnectionId st cid).subs =
        st.subs.filter (fun r => !scanMatches cid r) ∧
    (unsubscribeAllByConnectionId st cid).ops =
        st.ops.filter (fun o => !strBeginsWith cid o.subscriptionId) ∧
    (∀ (name : String) (time fuel : Nat) (page : List SubRow) (r : SubRow),
      page ∈ sbeConsume (unsubscribeAllByConnectionId st cid).subs name time
        fuel ⟨0, false⟩ →
      r ∈ page → scanMatches cid r = false) := by
  have h := unsubAllGo_complete cid st st.subs hcov (fun r hr _ => hr) hcorr
  have h1 : (unsubscribeAllByConnectionId st cid).subs =
      st.subs.filter (fun r => !scanMatches cid r) := h.1
  have h2 : (unsubscribeAllByConnectionId st cid).ops =
      st.ops.filter (fun o => !strBeginsWith cid o.subscriptionId) := h.2
  refine ⟨h1, h2, ?_⟩
  intro name time fuel page r hpage hr
  have hmem := sbeConsume_sound _ name time fuel _ page r hpage hr
  rw [h1] at hmem
  have := (List.mem_filter.mp hmem).2
  simpa using this

/-- Witness for the amended C2 on a two-row table: the row of connection
`"a"` is removed from both indexes, the other connection's row stays. -/
theorem unsubscribeAll_complete_witness :
    scanCoversB "a" stSmall.subs = true ∧
      (unsubscribeAllByConnectionId stSmall "a").subs =
        stSmall.subs.filter (fun r => !scanMatches "a" r) ∧
      (unsubscribeAllByConnectionId stSmall "a").ops =
        stSmall.ops.filter (fun o => !strBeginsWith "a" o.subscriptionId) := by
  have hcov : scanCoversB "a" stSmall.subs = true := by
    rw [scanCoversB]
    decide
  have h := unsubscribeAll_complete stSmall "a" hcov (by decide)
  exact ⟨hcov, h.1, h.2.1⟩

/-! ## Claim C4: the retry loop of `hydrateConnection` -/

theorem firstFound_spec (reads : Nat → Option Connection) :
    ∀ (n i j : Nat) (c : Connection), firstFound reads i n = some (j, c) →
      i ≤ j ∧ j < i + n ∧ reads j = some c ∧
        ∀ k, i ≤ k → k < j → reads k = none := by
  intro n
  induction n with
  | zero =>
    intro i j c h
    exact absurd h (by simp [firstFound])
  | succ m ih =>
    intro i j c h
    cases hr : reads i with
    | some c' =>
      rw [firstFound, hr] at h
      obtain ⟨rfl, rfl⟩ := Prod.mk.injEq .. ▸ Option.some.inj h
      exact ⟨le_refl i, by omega, hr, fun k hk1 hk2 => absurd hk2 (by omega)⟩
    | none =>
      rw [firstFound, hr] at h
      obtain ⟨h1, h2, h3, h4⟩ := ih (i + 1) j c h
      refine ⟨by omega, by omega, h3, ?_⟩
      intro k hk1 hk2
      rcases Nat.eq_or_lt_of_le hk1 with rfl | hk
      · exact hr
      · exact h4 k (by omega) hk2

theorem firstFound_none_iff (reads : Nat → Option Connection) :
    ∀ (n i : Nat), firstFound reads i n = none ↔
      ∀ k, i ≤ k → k < i + n → reads k = none := by
  intro n
  induction n with
  | zero =>
    intro i
    constructor
    · intro _ k hk1 hk2
      exact absurd hk2 (by omega)
    · intro _
      rfl
  | succ m ih =>
    intro i
    cases hr : reads i with
    | some c =>
      rw [firstFound, hr]
      constructor
      · intro h
        exact absurd h (by simp)
      · intro h
        exfalso
        have := h i (le_refl i) (by omega)
        rw [hr] at this
        exact Option.noConfusion this
    | none =>
      rw [firstFound, hr, ih (i + 1)]
      constructor
      · intro h k hk1 hk2
        rcases Nat.eq_or_lt_of_le hk1 with rfl | hk
        · exact hr
        · exact h k (by omega) (by omega)
      · intro h k hk1 hk2
        exact h k (by omega) (by omega)

theorem firstFound_eq_some (reads : Nat → Option Connection) :
    ∀ (n i j : Nat) (c : Connection), i ≤ j → j < i + n → reads j = some c →
      (∀ k, i ≤ k → k < j → reads k = none) →
      firstFound reads i n = some (j, c) := by
  intro n
  induction n with
  | zero =>
    intro i j c h1 h2 _ _
    exact absurd h2 (by omega)
  | succ m ih =>
    intro i j c h1 h2 h3 h4
    rcases Nat.eq_or_lt_of_le h1 with rfl | hlt
    · rw [firstFound, h3]
    · have hri : reads i = none := h4 i (le_refl i) hlt
      rw [firstFound, hri]
      exact ih (i + 1) j c (by omega) (by omega) h3
        (fun k hk1 hk2 => h4 k (by omega) hk2)

theorem hydrateLoop_fst (reads : Nat → Option Connection) :
    ∀ (n i : Nat),
      (hydrateLoop reads i n).1 = (firstFound reads i n).map Prod.snd := by
  intro n
  induction n with
  | zero =>
    intro i
    rfl
  | succ m ih =>
    intro i
    cases hr : reads i with
    | some c => simp [hydrateLoop, firstFound, hr]
    | none => simp [hydrateLoop, firstFound, hr, ih (i + 1)]

theorem hydrateLoop_trace (reads : Nat → Option Connection) :
    ∀ (n i : Nat), (hydrateLoop reads i n).2 = hydrateTraceSpec reads i n := by
  intro n
  induction n with
  | zero =>
    intro i
    rfl
  | succ m ih =>
    intro i
    cases hr : reads i with
    | some c =>
      simp [hydrateLoop, hydrateTraceSpec, firstFound, hr, failTrace]
    | none =>
      rw [hydrateLoop, hr]
      rw [hydrateTraceSpec, firstFound, hr]
      cases hff : firstFound reads (i + 1) m with
      | none =>
        dsimp only
        rw [ih (i + 1), hydrateTraceSpec, hff, failTrace]
        rfl
      | some jc =>
        obtain ⟨j, c⟩ := jc
        have hb := (firstFound_spec reads m (i + 1) j c hff).1
        dsimp only
        rw [ih (i + 1), hydrateTraceSpec, hff]
        have hji : j - i = (j - (i + 1)) + 1 := by omega
        rw [hji, failTrace]
        rfl

theorem numLookups_append (t1 t2 : List HEvent) :
    numLookups (t1 ++ t2) = numLookups t1 + numLookups t2 := by
  simp [numLookups, List.filter_append]

theorem numLookups_failTrace : ∀ (n i : Nat), numLookups (failTrace i n) = n := by
  intro n
  induction n with
  | zero =>
    intro i
    rfl
  | succ m ih =>
    intro i
    show numLookups (lookupWaitBlock i ++ failTrace (i + 1) m) = m + 1
    have h1 : numLookups (lookupWaitBlock i) = 1 := rfl
    rw [numLookups_append, ih (i + 1), h1]
    omega

/-- C4: `hydrateConnection` throws `ConnectionNotFoundError` exactly when
either every one of the `retryCount + 1` point lookups returns no row or
the first row found has an elapsed ttl; otherwise it returns the stored
row.  It performs at most `retryCount + 1` lookups (exactly
`firstSuccess + 1` when an attempt succeeds), each unsuccessful lookup
followed by one wait of the configured timeout. -/
theorem hydrateConnection_spec (reads : Nat → Option Connection)
    (retryCount now : Nat) :
    ((hydrateConnection reads retryCount now).1 =
        HydrateResult.connectionNotFound ↔
      ((∀ i, i ≤ retryCount → reads i = none) ∨
       (∃ j c, j ≤ retryCount ∧ reads j = some c ∧
          (∀ k, k < j → reads k = none) ∧ isTTLExpired c.ttl now = true))) ∧
    (∀ j c, j ≤ retryCount → reads j = some c →
      (∀ k, k < j → reads k = none) → isTTLExpired c.ttl now = false →
      (hydrateConnection reads retryCount now).1 = HydrateResult.found c) ∧
    ((hydrateConnection reads retryCount now).2 =
      hydrateTraceSpec reads 0 (retryCount + 1)) ∧
    numLookups (hydrateConnection reads retryCount now).2 ≤ retryCount + 1 := by
  have hfst := hydrateLoop_fst reads (retryCount + 1) 0
  have htr := hydrateLoop_trace reads (retryCount + 1) 0
  cases hff : firstFound reads 0 (retryCount + 1) with
  | none =>
    have hl1 : (hydrateLoop reads 0 (retryCount + 1)).1 = none := by
      rw [hfst, hff]
      rfl
    have hres : hydrateConnection reads retryCount now =
        (HydrateResult.connectionNotFound,
          (hydrateLoop reads 0 (retryCount + 1)).2) := by
      simp only [hydrateConnection, hl1]
    have hnone : ∀ i, i ≤ retryCount → reads i = none := by
      intro i hi
      exact (firstFound_none_iff reads (retryCount + 1) 0).mp hff i
        (by omega) (by omega)
    refine ⟨?_, ?_, ?_, ?_⟩
    · rw [hres]
      simp only [true_iff]
      exact Or.inl hnone
    · intro j c hj hr _ _
      exfalso
      have := hnone j hj
      rw [hr] at this
      exact Option.noConfusion this
    · rw [hres]
      exact htr
    · rw [hres]
      have : (hydrateLoop reads 0 (retryCount + 1)).2 =
          failTrace 0 (retryCount + 1) := by
        rw [htr, hydrateTraceSpec, hff]
      rw [this, numLookups_failTrace]
  | some jc =>
    obtain ⟨j, c⟩ := jc
    obtain ⟨hj0, hjlt, hrj, hprev⟩ :=
      firstFound_spec reads (retryCount + 1) 0 j c hff
    have hl1 : (hydrateLoop reads 0 (retryCount + 1)).1 = some c := by
      rw [hfst, hff]
      rfl
    have hres : hydrateConnection reads retryCount now =
        (if isTTLExpired c.ttl now then HydrateResult.connectionNotFound
         else HydrateResult.found c,
          (hydrateLoop reads 0 (retryCount + 1)).2) := by
      simp only [hydrateConnection, hl1]
      split <;> rfl
    have hres1 : (hydrateConnection reads retryCount now).1 =
        (if isTTLExpired c.ttl now then HydrateResult.connectionNotFound
         else HydrateResult.found c) := by
      rw [hres]
    have hres2 : (hydrateConnection reads retryCount now).2 =
        (hydrateLoop reads 0 (retryCount + 1)).2 := by
      rw [hres]
    have htrace : (hydrateLoop reads 0 (retryCount + 1)).2 =
        failTrace 0 j ++ [HEvent.lookup j] := by
      rw [htr, hydrateTraceSpec, hff]
      rfl
    refine ⟨?_, ?_, ?_, ?_⟩
    · constructor
      · intro h
        rw [hres1] at h
        cases hexp : isTTLExpired c.ttl now with
        | true =>
          exact Or.inr ⟨j, c, by omega, hrj,
            fun k hk => hprev k (by omega) hk, hexp⟩
        | false =>
          rw [hexp] at h
          simp at h
      · intro hrhs
        rw [hres1]
        rcases hrhs with hall | ⟨j', c', hj', hr', hprev', hexp'⟩
        · exfalso
          have := hall j (by omega)
          rw [hrj] at this
          exact Option.noConfusion this
        · have := firstFound_eq_some reads (retryCount + 1) 0 j' c'
            (by omega) (by omega) hr' (fun k _ hk => hprev' k hk)
          rw [hff] at this
          obtain ⟨rfl, rfl⟩ := Prod.mk.injEq .. ▸ Option.some.inj this.symm
          rw [if_pos hexp']
    · intro j' c' hj' hr' hprev' hexp'
      have := firstFound_eq_some reads (retryCount + 1) 0 j' c'
        (by omega) (by omega) hr' (fun k _ hk => hprev' k hk)
      rw [hff] at this
      obtain ⟨rfl, rfl⟩ := Prod.mk.injEq .. ▸ Option.some.inj this.symm
      rw [hres1, if_neg (by simp [hexp'])]
    · rw [hres2]
      exact htr
    · rw [hres2, htrace, numLookups_append, numLookups_failTrace]
      have h1 : numLookups [HEvent.lookup j] = 1 := rfl
      rw [h1]
      omega

/-- Witness for C4: a read sequence that misses on attempt 0 and hits on
attempt 1 hydrates the found row within a `retryCount = 2` budget. -/
theorem hydrateConnection_spec_witness :
    (hydrateConnection readsHit1 2 100).1 = HydrateResult.found conn0 :=
  (hydrateConnection_spec readsHit1 2 100).2.1 1 conn0 (by omega) rfl
    (fun k hk => by
      have : k = 0 := by omega
      subst this
      rfl)
    rfl

end AwsGraphql
